import Mathlib

/-!
Shallow embedding of the video-processing job tracker.

Sources embedded here:
- `services/WebSocketManager.js` — the in-memory job registry (`this.videos`,
  a JS `Map`) and its operations `notifyNewUpload`, `updateVideoStatus`,
  `updateVideoResults`, `getVideoStatus`, `getVideosByStatus`,
  `getSystemStats`, together with the socket deliveries each emits.
- the main server file (`src/unnamed/part_000`) — the `/upload` handler's
  GitHub branch, the `processVideo` local pipeline (the sequence of
  `updateVideoStatus` calls it performs, parametrised by the outcomes of the
  delegated ffmpeg/ImageKit/GitHub operations), and the `join-video-room`
  socket handling.
- `public/app.js` — `startPollingResults`, the client-side result poller.

JS numbers are modelled as `ℚ` (all progress arithmetic in the source is
exact decimal arithmetic); timestamps (`new Date().toISOString()`) are
abstracted as opaque `String` arguments; JS object fields that may be
`undefined` are `Option`s.
-/

namespace VideoSys

/-- A record stored in `WebSocketManager.videos`. Fields that a given code
path does not set are `none`/`[]` (JS `undefined` / default). -/
structure VideoRecord where
  id : String
  originalName : String
  status : String
  progress : ℚ
  timestamp : String
  size : Nat
  lastUpdate : Option String := none
  error : Option String := none
  processedVideoUrl : Option String := none
  thumbnailUrl : Option String := none
  videoParts : List String := []
  completedAt : Option String := none
deriving Repr, DecidableEq

/-- The registry: the JS `Map` of `WebSocketManager.videos`, as an
insertion-ordered association list with unique keys maintained by `setVideo`. -/
abbrev Registry := List (String × VideoRecord)

/-- JS `Map.prototype.get`. -/
def getVideo (m : Registry) (k : String) : Option VideoRecord :=
  (List.find? (fun p => p.1 = k) m).map (fun p => p.2)

/-- JS `Map.prototype.set`: replace in place if the key exists, else append. -/
def setVideo (m : Registry) (k : String) (v : VideoRecord) : Registry :=
  if List.any m (fun p => p.1 = k) then
    List.map (fun p => if p.1 = k then (k, v) else p) m
  else
    List.append m [(k, v)]

/-- Destination of a socket emission. -/
inductive Dest where
  | broadcast
  | room (videoId : String)
  | socket (sid : String)
deriving Repr, DecidableEq

/-- One `emit` performed by the server: destination, event name, payload. -/
structure Delivery where
  dest : Dest
  event : String
  video : VideoRecord
deriving Repr, DecidableEq

/-- `WebSocketManager.notifyNewUpload`: stores exactly the six listed fields
and broadcasts `new-video-upload`. -/
def notifyNewUpload (m : Registry) (info : VideoRecord) : Registry × List Delivery :=
  let stored : VideoRecord :=
    { id := info.id, originalName := info.originalName, status := info.status,
      progress := info.progress, timestamp := info.timestamp, size := info.size }
  (setVideo m info.id stored, [⟨Dest.broadcast, "new-video-upload", stored⟩])

/-- The object spread in `updateVideoStatus`: merge status/progress, stamp
`lastUpdate`, and overwrite `error` only when a non-null error is passed. -/
def mergeStatusUpdate (v : VideoRecord) (status : String) (progress : ℚ)
    (error : Option String) (now : String) : VideoRecord :=
  { v with status := status, progress := progress, lastUpdate := some now,
           error := match error with
                    | some e => some e
                    | none => v.error }

/-- `WebSocketManager.updateVideoStatus`: no-op (with a warning) for an
unknown id; otherwise merges the fields and emits `video-status-update` to
the video's room and to all clients. -/
def updateVideoStatus (m : Registry) (videoId status : String) (progress : ℚ)
    (error : Option String) (now : String) : Registry × List Delivery :=
  match getVideo m videoId with
  | none => (m, [])
  | some video =>
    let updated := mergeStatusUpdate video status progress error now
    (setVideo m videoId updated,
     [⟨Dest.room videoId, "video-status-update", updated⟩,
      ⟨Dest.broadcast, "video-status-update", updated⟩])

/-- The result payload returned by `ImageKitService.uploadFiles` (or read
back from the results store): `videoUrl`, `thumbnailUrl`, optional parts. -/
structure UploadResults where
  videoUrl : String
  thumbnailUrl : String
  videoParts : Option (List String) := none
deriving Repr, DecidableEq

/-- The object spread in `updateVideoResults`: attach the result URLs, force
`status = completed` and `progress = 100`, stamp `completedAt`. -/
def mergeResults (v : VideoRecord) (results : UploadResults) (now : String) : VideoRecord :=
  { v with processedVideoUrl := some results.videoUrl,
           thumbnailUrl := some results.thumbnailUrl,
           videoParts := results.videoParts.getD [],
           status := "completed", progress := 100,
           completedAt := some now }

/-- `WebSocketManager.updateVideoResults`: no-op for an unknown id; otherwise
merges the result fields and emits the distinguished `video-completed` event
to the room and to all clients. -/
def updateVideoResults (m : Registry) (videoId : String) (results : UploadResults)
    (now : String) : Registry × List Delivery :=
  match getVideo m videoId with
  | none => (m, [])
  | some video =>
    let updated := mergeResults video results now
    (setVideo m videoId updated,
     [⟨Dest.room videoId, "video-completed", updated⟩,
      ⟨Dest.broadcast, "video-completed", updated⟩])

/-- `WebSocketManager.getVideoStatus`. -/
def getVideoStatus (m : Registry) (videoId : String) : Option VideoRecord :=
  getVideo m videoId

/-- `WebSocketManager.getVideosByStatus`. -/
def getVideosByStatus (m : Registry) (status : String) : List VideoRecord :=
  List.filter (fun v => v.status = status) (List.map (fun p => p.2) m)

/-- The object returned by `WebSocketManager.getSystemStats`. -/
structure SystemStats where
  total : Nat
  uploaded : Nat
  processing : Nat
  completed : Nat
  error : Nat
  active : Nat
deriving Repr, DecidableEq

/-- `WebSocketManager.getSystemStats`: counts by status, `total` is the map
size, `active = uploaded + processing`. -/
def getSystemStats (m : Registry) : SystemStats :=
  let total := m.length
  let uploaded := (getVideosByStatus m "uploaded").length
  let processing := (getVideosByStatus m "processing").length
  let completed := (getVideosByStatus m "completed").length
  let error := (getVideosByStatus m "error").length
  { total := total, uploaded := uploaded, processing := processing,
    completed := completed, error := error, active := uploaded + processing }

/-! ### The local pipeline (`processVideo` in the main server file)

`processVideo` is a straight-line `async` function whose only registry
effects are `updateVideoStatus` calls. We embed it as the list of status
updates it performs, parametrised by the outcomes of the delegated external
operations (ffprobe analysis, ffmpeg transcode with its progress callback,
thumbnail capture, ImageKit upload with its progress callback, and the final
`fs.remove` cleanup). GitHub issue creation and result commits sit in their
own `try`/`catch` blocks, are swallowed on failure, and touch the registry
in no way, so they need no parameter. -/

/-- Outcome of one delegated external operation. -/
inductive StageResult (α : Type) where
  | ok (val : α)
  | fail (msg : String)
deriving Repr, DecidableEq

/-- Outcomes of the delegated operations consumed by one `processVideo` run.
The two progress lists are the stage-local percentages delivered by the
transcode and upload progress callbacks before the stage's own outcome. -/
structure PipelineEnv where
  analyzeResult : StageResult Unit
  transcodeProgress : List ℚ
  transcodeResult : StageResult String
  thumbnailResult : StageResult String
  uploadProgress : List ℚ
  uploadResult : StageResult UploadResults
  cleanupResult : StageResult Unit
deriving Repr, DecidableEq

/-- The transcode progress callback: `20 + (progress * 0.4)` (comment in the
source: 20-60%). -/
def transcodeAdjusted (p : ℚ) : ℚ := 20 + p * (4 / 10)

/-- The upload progress callback: `70 + (progress * 0.25)` (comment in the
source: 70-95%). -/
def uploadAdjusted (p : ℚ) : ℚ := 70 + p * (25 / 100)

/-- The spec's aggregation formula, for comparison with the source's
callbacks: `overall = rangeStart + stageLocalPercent * (rangeEnd - rangeStart) / 100`. -/
def aggregateProgress (rangeStart rangeEnd p : ℚ) : ℚ :=
  rangeStart + p * (rangeEnd - rangeStart) / 100

/-- One `updateVideoStatus` call made by `processVideo` (status, progress,
optional error message). -/
structure RegUpdate where
  status : String
  progress : ℚ
  errMsg : Option String := none
deriving Repr, DecidableEq

/-- The exact sequence of `updateVideoStatus` calls `processVideo` performs
for given delegated-operation outcomes. Any raised error reaches the single
`catch`, which issues `updateVideoStatus(id, 'error', 0, error.message)`;
nothing runs after the catch. -/
def processVideoUpdates (env : PipelineEnv) : List RegUpdate :=
  ⟨"processing", 10, none⟩ ::
  (match env.analyzeResult with
   | .fail m => [⟨"error", 0, some m⟩]
   | .ok _ =>
     ⟨"processing", 20, none⟩ ::
     (List.map (fun p => (⟨"processing", transcodeAdjusted p, none⟩ : RegUpdate))
        env.transcodeProgress ++
      match env.transcodeResult with
      | .fail m => [⟨"error", 0, some m⟩]
      | .ok _ =>
        ⟨"processing", 60, none⟩ ::
        (match env.thumbnailResult with
         | .fail m => [⟨"error", 0, some m⟩]
         | .ok _ =>
           ⟨"processing", 70, none⟩ ::
           (List.map (fun p => (⟨"processing", uploadAdjusted p, none⟩ : RegUpdate))
              env.uploadProgress ++
            match env.uploadResult with
            | .fail m => [⟨"error", 0, some m⟩]
            | .ok _ =>
              ⟨"completed", 100, none⟩ ::
              (match env.cleanupResult with
               | .fail m => [⟨"error", 0, some m⟩]
               | .ok _ => [])))))

/-- The message of the first delegated operation that fails in a run, if any
(the error that reaches `processVideo`'s catch block). -/
def firstFailure (env : PipelineEnv) : Option String :=
  match env.analyzeResult with
  | .fail m => some m
  | .ok _ =>
    match env.transcodeResult with
    | .fail m => some m
    | .ok _ =>
      match env.thumbnailResult with
      | .fail m => some m
      | .ok _ =>
        match env.uploadResult with
        | .fail m => some m
        | .ok _ =>
          match env.cleanupResult with
          | .fail m => some m
          | .ok _ => none

/-- Apply a list of pipeline updates to the registry through
`updateVideoStatus` (timestamps abstracted). -/
def applyUpdates (m : Registry) (videoId : String) (us : List RegUpdate) : Registry :=
  List.foldl (fun acc u => (updateVideoStatus acc videoId u.status u.progress u.errMsg "t").1)
    m us

/-- The progress values of the updates a `processVideo` run reports with
status `processing` (what subscribers observe while the job is processing). -/
def reportedProcessingProgress (env : PipelineEnv) : List ℚ :=
  List.map (fun u => u.progress)
    (List.filter (fun u => u.status = "processing") (processVideoUpdates env))

/-! ### The `/upload` handler, GitHub branch

In GitHub mode the handler builds `videoInfo` (status `uploaded`, progress
0), calls `notifyNewUpload`, commits the uploaded file to
`uploads/<multer filename>` via `GitHubService.commitLocalFileToRepo`, and
on success issues exactly one further update — `processing`/15 — and
responds 200; on commit failure it issues `error`/0 with the error message
and responds 500. -/

/-- The request-derived data for one upload (`videoInfo` fields other than
status/progress, which the handler fixes). The multer `filename` contains
its own timestamp and random suffix and is distinct from `id`. -/
structure UploadReqInfo where
  id : String
  originalName : String
  filename : String
  timestamp : String
  size : Nat
deriving Repr, DecidableEq

/-- The `videoInfo` object the handler builds: status `uploaded`, progress 0. -/
def mkVideoInfo (r : UploadReqInfo) : VideoRecord :=
  { id := r.id, originalName := r.originalName, status := "uploaded",
    progress := 0, timestamp := r.timestamp, size := r.size }

/-- The repository path the GitHub branch commits the artifact to:
`uploads/<filename>`. -/
def repoUploadPath (r : UploadReqInfo) : String := "uploads/" ++ r.filename

/-- HTTP outcome of the handler. -/
structure HttpResponse where
  statusCode : Nat
  success : Bool
deriving Repr, DecidableEq

/-- Everything observable about one run of the GitHub branch of the upload
handler: the final registry, the HTTP response, the emitted deliveries, the
store path the commit targeted, and the `updateVideoStatus` calls made after
the creation notification. -/
structure UploadOutcome where
  registry : Registry
  response : HttpResponse
  deliveries : List Delivery
  commitPath : String
  statusUpdates : List RegUpdate
deriving Repr, DecidableEq

/-- The GitHub branch of `app.post('/upload')`, parametrised by the outcome
of `commitLocalFileToRepo`. -/
def handleUploadGithub (m : Registry) (r : UploadReqInfo)
    (commitResult : StageResult Unit) : UploadOutcome :=
  let created := notifyNewUpload m (mkVideoInfo r)
  match commitResult with
  | .ok _ =>
    let upd := updateVideoStatus created.1 r.id "processing" 15 none "t"
    { registry := upd.1, response := ⟨200, true⟩,
      deliveries := created.2 ++ upd.2,
      commitPath := repoUploadPath r,
      statusUpdates := [⟨"processing", 15, none⟩] }
  | .fail msg =>
    let upd := updateVideoStatus created.1 r.id "error" 0 (some msg) "t"
    { registry := upd.1, response := ⟨500, false⟩,
      deliveries := created.2 ++ upd.2,
      commitPath := repoUploadPath r,
      statusUpdates := [⟨"error", 0, some msg⟩] }

/-! ### The client-side result poller (`startPollingResults` in
`public/app.js`)

A `setInterval` loop at 15000 ms. Each tick increments `attempts`, fetches
`/results/<id>`, and on a successful payload updates the local video map to
`completed`/100 with the fetched URLs and clears the interval; after the
try/catch, `attempts >= maxAttempts` clears the interval and shows the
timeout error. The per-attempt outcome is modelled as a function from the
attempt number (1-based) to an optional result payload. -/

/-- The fetched results payload (`payload.data.results || payload.data`). -/
structure ResultData where
  videoUrl : Option String := none
  thumbnailUrl : Option String := none
  videoParts : Option (List String) := none
deriving Repr, DecidableEq

/-- `pollIntervalMs` in `startPollingResults`. -/
def pollIntervalMs : Nat := 15000

/-- `maxAttempts` in `startPollingResults`. -/
def maxAttempts : Nat := 80

/-- Observable outcome of one poller run: how many attempts were made,
whether the timeout error was shown, and the fetched payload if any. -/
structure PollResult where
  attempts : Nat
  timedOut : Bool
  found : Option ResultData
deriving Repr, DecidableEq

/-- The interval loop: `fuel` attempts remain, `a` attempts made so far.
Each tick increments the counter, checks the fetch outcome, and stops on
success or on reaching `maxAttempts` (the timeout branch also fires on a
success at the final attempt, exactly as in the source, where the
`attempts >= maxAttempts` check runs after the success branch). -/
def pollGo (fetch : Nat → Option ResultData) : Nat → Nat → PollResult
  | 0, a => ⟨a, false, none⟩
  | fuel + 1, a =>
    let a1 := a + 1
    match fetch a1 with
    | some d => ⟨a1, decide (maxAttempts ≤ a1), some d⟩
    | none =>
      if maxAttempts ≤ a1 then ⟨a1, true, none⟩
      else pollGo fetch fuel a1

/-- One full run of `startPollingResults` against a fetch behaviour. -/
def pollRun (fetch : Nat → Option ResultData) : PollResult :=
  pollGo fetch maxAttempts 0

/-- The `updated` object the success branch builds:
`existing = videos.get(videoId) || { id: videoId }` merged to
`completed`/100 with the fetched URLs falling back to the existing ones. -/
def pollMerged (videos : Registry) (videoId : String) (d : ResultData) : VideoRecord :=
  let existing : VideoRecord :=
    (getVideo videos videoId).getD
      { id := videoId, originalName := "", status := "", progress := 0,
        timestamp := "", size := 0 }
  { existing with
      status := "completed", progress := 100,
      processedVideoUrl := (match d.videoUrl with
                            | some u => some u
                            | none => existing.processedVideoUrl),
      thumbnailUrl := (match d.thumbnailUrl with
                       | some u => some u
                       | none => existing.thumbnailUrl),
      videoParts := (match d.videoParts with
                     | some ps => ps
                     | none => existing.videoParts) }

/-- The success branch's update of the client-side `videos` map:
`videos.set(videoId, updated)`. -/
def applyPollSuccess (videos : Registry) (videoId : String) (d : ResultData) : Registry :=
  setVideo videos videoId (pollMerged videos videoId d)

/-- The poller's total effect on the client-side map: nothing on timeout,
one `completed` write on success. -/
def applyPollOutcome (videos : Registry) (videoId : String)
    (found : Option ResultData) : Registry :=
  match found with
  | none => videos
  | some d => applyPollSuccess videos videoId d

/-! ### Serialized server trace (for the subscribe-snapshot guarantee)

The socket server handles events one at a time; we model a serial trace of
commands against the `WebSocketManager` state and collect the deliveries in
order. `join-video-room` joins the room and, when the job exists, emits the
current record to the joining socket (`WebSocketManager.setupEventHandlers`). -/

/-- One serialized server-side action. -/
inductive Cmd where
  | joinRoom (sid : String) (videoId : String)
  | newUpload (info : VideoRecord)
  | update (videoId status : String) (progress : ℚ) (error : Option String) (now : String)
  | results (videoId : String) (res : UploadResults) (now : String)
deriving Repr, DecidableEq

/-- Effect of one command on the registry, with the deliveries it emits. -/
def serverStep (m : Registry) : Cmd → Registry × List Delivery
  | .joinRoom sid vid =>
    match getVideo m vid with
    | some v => (m, [⟨Dest.socket sid, "video-status-update", v⟩])
    | none => (m, [])
  | .newUpload info => notifyNewUpload m info
  | .update vid s p e now => updateVideoStatus m vid s p e now
  | .results vid res now => updateVideoResults m vid res now

/-- Run a command trace serially, concatenating deliveries in order. -/
def serverRun (m : Registry) : List Cmd → Registry × List Delivery
  | [] => (m, [])
  | c :: cs =>
    let st := serverStep m c
    let rest := serverRun st.1 cs
    (rest.1, st.2 ++ rest.2)

/-! ### Concrete scenario inputs used by counterexamples and witnesses -/

/-- A freshly uploaded video record (as built by the `/upload` handler). -/
def demoUpload : VideoRecord :=
  { id := "J1", originalName := "demo.mp4", status := "uploaded", progress := 0,
    timestamp := "t0", size := 10 }

/-- A registry whose single job `J1` has reached the terminal state
`completed` through `updateVideoResults`. -/
def terminalRegistry : Registry :=
  (updateVideoResults (notifyNewUpload [] demoUpload).1 "J1"
    { videoUrl := "u", thumbnailUrl := "th" } "t1").1

/-- `terminalRegistry` after a further `updateVideoStatus` back to
`processing`/50. -/
def overwrittenRegistry : Registry :=
  (updateVideoStatus terminalRegistry "J1" "processing" 50 none "t2").1

/-- A pipeline run in which every delegated operation succeeds. -/
def successEnv : PipelineEnv :=
  { analyzeResult := .ok (), transcodeProgress := [50], transcodeResult := .ok "p.mp4",
    thumbnailResult := .ok "th.jpg", uploadProgress := [50],
    uploadResult := .ok { videoUrl := "u", thumbnailUrl := "th" },
    cleanupResult := .ok () }

/-- The registry after the local pipeline completes job `J1` successfully. -/
def localCompletedRegistry : Registry :=
  applyUpdates (notifyNewUpload [] demoUpload).1 "J1" (processVideoUpdates successEnv)

/-- The spec's `J3` record. -/
def j3Upload : VideoRecord :=
  { id := "J3", originalName := "j3.mp4", status := "uploaded", progress := 0,
    timestamp := "t0", size := 10 }

/-- The spec's scenario: stage 2 (transcode) fails with "codec error" after
analysis succeeded (last reported progress value 20). -/
def codecFailEnv : PipelineEnv :=
  { analyzeResult := .ok (), transcodeProgress := [], transcodeResult := .fail "codec error",
    thumbnailResult := .ok "th.jpg", uploadProgress := [],
    uploadResult := .ok { videoUrl := "u", thumbnailUrl := "th" },
    cleanupResult := .ok () }

/-- The registry after the codec-error pipeline run on `J3`. -/
def codecFailRegistry : Registry :=
  applyUpdates (notifyNewUpload [] j3Upload).1 "J3" (processVideoUpdates codecFailEnv)

/-- An upload request with job id "1" and one multer-generated filename. -/
def reqA : UploadReqInfo :=
  { id := "1", originalName := "a.mp4", filename := "video-1-11.mp4",
    timestamp := "t", size := 1 }

/-- An upload request with the same job id "1" but another generated
filename (multer's suffix is independent of the job id). -/
def reqB : UploadReqInfo :=
  { id := "1", originalName := "a.mp4", filename := "video-1-22.mp4",
    timestamp := "t", size := 1 }

/-! ## Basic lemmas about the registry map -/

theorem find?_map_set (m : List (String × VideoRecord)) (k : String) (v : VideoRecord)
    (h : List.any m (fun p => p.1 = k) = true) :
    List.find? (fun p => p.1 = k)
      (List.map (fun p => if p.1 = k then (k, v) else p) m) = some (k, v) := by
  induction m with
  | nil => simp at h
  | cons a as ih =>
    by_cases ha : a.1 = k
    · simp [ha]
    · simp only [List.any_cons, Bool.or_eq_true, decide_eq_true_eq] at h
      rcases h with h | h
      · exact absurd h ha
      · simp only [List.map_cons, if_neg ha]
        rw [List.find?_cons_of_neg _ (by simp [ha])]
        exact ih h

theorem find?_append_last (m : List (String × VideoRecord)) (k : String) (v : VideoRecord)
    (h : List.any m (fun p => p.1 = k) = false) :
    List.find? (fun p => p.1 = k) (List.append m [(k, v)]) = some (k, v) := by
  rw [List.append_eq]
  induction m with
  | nil =>
    rw [List.nil_append]
    exact List.find?_cons_of_pos _ (by simp)
  | cons a as ih =>
    simp only [List.any_cons, Bool.or_eq_false_iff, decide_eq_false_iff_not] at h
    rw [List.cons_append, List.find?_cons_of_neg _ (by simp [h.1])]
    exact ih h.2

theorem getVideo_setVideo_self (m : Registry) (k : String) (v : VideoRecord) :
    getVideo (setVideo m k v) k = some v := by
  unfold getVideo setVideo
  by_cases h : List.any m (fun p => p.1 = k) = true
  · rw [if_pos h, find?_map_set m k v h]
    rfl
  · rw [if_neg h, find?_append_last m k v (Bool.eq_false_iff.mpr h)]
    rfl

theorem find?_other_map_set (m : List (String × VideoRecord)) (k w : String)
    (v : VideoRecord) (hw : w ≠ k) :
    List.find? (fun p => p.1 = w)
      (List.map (fun p => if p.1 = k then (k, v) else p) m)
      = List.find? (fun p => p.1 = w) m := by
  induction m with
  | nil => simp
  | cons a as ih =>
    by_cases ha : a.1 = k
    · simp only [List.map_cons, if_pos ha]
      rw [List.find?_cons_of_neg _ (by simp [Ne.symm hw]),
          List.find?_cons_of_neg _ (by simp [ha, Ne.symm hw])]
      exact ih
    · simp only [List.map_cons, if_neg ha]
      by_cases haw : a.1 = w
      · rw [List.find?_cons_of_pos _ (by simp [haw]),
            List.find?_cons_of_pos _ (by simp [haw])]
      · rw [List.find?_cons_of_neg _ (by simp [haw]),
            List.find?_cons_of_neg _ (by simp [haw])]
        exact ih

theorem find?_other_append (m : List (String × VideoRecord)) (k w : String)
    (v : VideoRecord) (hw : w ≠ k) :
    List.find? (fun p => p.1 = w) (List.append m [(k, v)])
      = List.find? (fun p => p.1 = w) m := by
  rw [List.append_eq]
  induction m with
  | nil =>
    rw [List.nil_append, List.find?_cons_of_neg _ (by simp [Ne.symm hw])]
  | cons a as ih =>
    rw [List.cons_append]
    by_cases haw : a.1 = w
    · rw [List.find?_cons_of_pos _ (by simp [haw]),
          List.find?_cons_of_pos _ (by simp [haw])]
    · rw [List.find?_cons_of_neg _ (by simp [haw]),
          List.find?_cons_of_neg _ (by simp [haw])]
      exact ih

theorem getVideo_setVideo_ne (m : Registry) (k w : String) (v : VideoRecord)
    (hw : w ≠ k) : getVideo (setVideo m k v) w = getVideo m w := by
  unfold getVideo setVideo
  by_cases h : List.any m (fun p => p.1 = k) = true
  · rw [if_pos h, find?_other_map_set m k w v hw]
  · rw [if_neg h, find?_other_append m k w v hw]

/-- The registry effect of `updateVideoStatus` on a present record. -/
theorem updateVideoStatus_registry_of_present (m : Registry) (videoId status : String)
    (progress : ℚ) (error : Option String) (now : String) (v : VideoRecord)
    (h : getVideo m videoId = some v) :
    (updateVideoStatus m videoId status progress error now).1
      = setVideo m videoId (mergeStatusUpdate v status progress error now) := by
  unfold updateVideoStatus
  rw [h]

/-- The registry effect of `updateVideoResults` on a present record. -/
theorem updateVideoResults_registry_of_present (m : Registry) (videoId : String)
    (results : UploadResults) (now : String) (v : VideoRecord)
    (h : getVideo m videoId = some v) :
    (updateVideoResults m videoId results now).1
      = setVideo m videoId (mergeResults v results now) := by
  unfold updateVideoResults
  rw [h]

/-- `updateVideoStatus` for an unknown id leaves the registry unchanged. -/
theorem updateVideoStatus_registry_of_absent (m : Registry) (videoId status : String)
    (progress : ℚ) (error : Option String) (now : String)
    (h : getVideo m videoId = none) :
    (updateVideoStatus m videoId status progress error now).1 = m := by
  unfold updateVideoStatus
  rw [h]

/-- Folding pipeline updates over a present record yields the fold of the
merges over that record. -/
theorem applyUpdates_get (us : List RegUpdate) (m : Registry) (videoId : String)
    (v : VideoRecord) (h : getVideo m videoId = some v) :
    getVideo (applyUpdates m videoId us) videoId
      = some (List.foldl (fun acc u => mergeStatusUpdate acc u.status u.progress u.errMsg "t")
          v us) := by
  induction us generalizing m v with
  | nil => simpa [applyUpdates]
  | cons u us ih =>
    simp only [applyUpdates, List.foldl_cons] at *
    rw [updateVideoStatus_registry_of_present m videoId u.status u.progress u.errMsg "t" v h]
    exact ih _ _ (getVideo_setVideo_self m videoId _)

/-! ## Lemmas about the progress aggregation -/

theorem transcodeAdjusted_lb (p : ℚ) (h : 0 ≤ p) : 20 ≤ transcodeAdjusted p := by
  unfold transcodeAdjusted; nlinarith

theorem transcodeAdjusted_ub (p : ℚ) (h : p ≤ 100) : transcodeAdjusted p ≤ 60 := by
  unfold transcodeAdjusted; nlinarith

theorem transcodeAdjusted_mono (p q : ℚ) (h : p ≤ q) :
    transcodeAdjusted p ≤ transcodeAdjusted q := by
  unfold transcodeAdjusted; nlinarith

theorem uploadAdjusted_lb (p : ℚ) (h : 0 ≤ p) : 70 ≤ uploadAdjusted p := by
  unfold uploadAdjusted; nlinarith

theorem uploadAdjusted_ub (p : ℚ) (h : p ≤ 100) : uploadAdjusted p ≤ 95 := by
  unfold uploadAdjusted; nlinarith

theorem uploadAdjusted_mono (p q : ℚ) (h : p ≤ q) :
    uploadAdjusted p ≤ uploadAdjusted q := by
  unfold uploadAdjusted; nlinarith

/-! ## Chain lemmas for progress monotonicity -/

theorem chainLe_append_of_bound (l1 l2 : List ℚ) (b : ℚ)
    (h1 : List.Chain' (· ≤ ·) l1) (h2 : List.Chain' (· ≤ ·) l2)
    (hb1 : ∀ x ∈ l1, x ≤ b) (hb2 : ∀ y ∈ l2, b ≤ y) :
    List.Chain' (· ≤ ·) (l1 ++ l2) := by
  rw [List.chain'_append]
  refine ⟨h1, h2, fun x hx y hy => ?_⟩
  exact le_trans (hb1 x (List.mem_of_mem_getLast? hx)) (hb2 y (List.mem_of_mem_head? hy))

theorem chainLe_map_transcode (tp : List ℚ) (h : List.Chain' (· ≤ ·) tp) :
    List.Chain' (· ≤ ·) (List.map transcodeAdjusted tp) := by
  rw [List.chain'_map]
  exact h.imp (fun a b hab => transcodeAdjusted_mono a b hab)

theorem chainLe_map_upload (up : List ℚ) (h : List.Chain' (· ≤ ·) up) :
    List.Chain' (· ≤ ·) (List.map uploadAdjusted up) := by
  rw [List.chain'_map]
  exact h.imp (fun a b hab => uploadAdjusted_mono a b hab)

/-! ## Lemmas about the serialized server trace -/

theorem serverRun_append (m : Registry) (as bs : List Cmd) :
    serverRun m (as ++ bs)
      = ((serverRun (serverRun m as).1 bs).1,
         (serverRun m as).2 ++ (serverRun (serverRun m as).1 bs).2) := by
  induction as generalizing m with
  | nil => simp [serverRun]
  | cons c cs ih =>
    rw [List.cons_append]
    simp only [serverRun]
    rw [ih]
    simp [List.append_assoc]

/-! ## Lemmas about the poller loop -/

theorem pollGo_first_success (fetch : Nat → Option ResultData) (k : Nat) (d : ResultData)
    (hk : k ≤ maxAttempts) (hfk : fetch k = some d)
    (hbefore : ∀ j, 1 ≤ j → j < k → fetch j = none) :
    ∀ fuel a, a + fuel = maxAttempts → a < k →
      pollGo fetch fuel a = ⟨k, decide (maxAttempts ≤ k), some d⟩ := by
  intro fuel
  induction fuel with
  | zero => intro a hfa hak; omega
  | succ n ih =>
    intro a hfa hak
    by_cases hek : a + 1 = k
    · simp only [pollGo]
      rw [hek, hfk]
    · have hlt : a + 1 < k := by omega
      have hnone : fetch (a + 1) = none := hbefore (a + 1) (by omega) hlt
      simp only [pollGo]
      rw [hnone]
      have hno : ¬ maxAttempts ≤ a + 1 := by
        unfold maxAttempts at *; omega
      rw [if_neg hno]
      exact ih (a + 1) (by omega) hlt

theorem pollGo_all_fail (fetch : Nat → Option ResultData)
    (h : ∀ n, 1 ≤ n → n ≤ maxAttempts → fetch n = none) :
    ∀ fuel a, a + fuel = maxAttempts → a < maxAttempts →
      pollGo fetch fuel a = ⟨maxAttempts, true, none⟩ := by
  intro fuel
  induction fuel with
  | zero => intro a hfa hak; omega
  | succ n ih =>
    intro a hfa hak
    have hnone : fetch (a + 1) = none := h (a + 1) (by omega) (by unfold maxAttempts at *; omega)
    simp only [pollGo]
    rw [hnone]
    by_cases hend : maxAttempts ≤ a + 1
    · rw [if_pos hend]
      have : a + 1 = maxAttempts := by omega
      rw [this]
    · rw [if_neg hend]
      exact ih (a + 1) (by omega) (by omega)

/-! ## Decomposition of a failing pipeline run -/

theorem processVideoUpdates_failure (env : PipelineEnv) (msg : String)
    (h : firstFailure env = some msg) :
    ∃ pre, processVideoUpdates env = pre ++ [⟨"error", 0, some msg⟩] := by
  obtain ⟨a, tp, tr, th, up, ur, cr⟩ := env
  cases a with
  | fail m =>
    simp only [firstFailure, Option.some.injEq] at h
    subst h
    exact ⟨[⟨"processing", 10, none⟩], by simp [processVideoUpdates]⟩
  | ok _ =>
    cases tr with
    | fail m =>
      simp only [firstFailure, Option.some.injEq] at h
      subst h
      refine ⟨⟨"processing", 10, none⟩ :: ⟨"processing", 20, none⟩ ::
        List.map (fun p => (⟨"processing", transcodeAdjusted p, none⟩ : RegUpdate)) tp, ?_⟩
      simp [processVideoUpdates]
    | ok _ =>
      cases th with
      | fail m =>
        simp only [firstFailure, Option.some.injEq] at h
        subst h
        refine ⟨⟨"processing", 10, none⟩ :: ⟨"processing", 20, none⟩ ::
          (List.map (fun p => (⟨"processing", transcodeAdjusted p, none⟩ : RegUpdate)) tp ++
           [⟨"processing", 60, none⟩]), ?_⟩
        simp [processVideoUpdates]
      | ok _ =>
        cases ur with
        | fail m =>
          simp only [firstFailure, Option.some.injEq] at h
          subst h
          refine ⟨⟨"processing", 10, none⟩ :: ⟨"processing", 20, none⟩ ::
            (List.map (fun p => (⟨"processing", transcodeAdjusted p, none⟩ : RegUpdate)) tp ++
             (⟨"processing", 60, none⟩ :: ⟨"processing", 70, none⟩ ::
              List.map (fun p => (⟨"processing", uploadAdjusted p, none⟩ : RegUpdate)) up)), ?_⟩
          simp [processVideoUpdates]
        | ok _ =>
          cases cr with
          | fail m =>
            simp only [firstFailure, Option.some.injEq] at h
            subst h
            refine ⟨⟨"processing", 10, none⟩ :: ⟨"processing", 20, none⟩ ::
              (List.map (fun p => (⟨"processing", transcodeAdjusted p, none⟩ : RegUpdate)) tp ++
               (⟨"processing", 60, none⟩ :: ⟨"processing", 70, none⟩ ::
                (List.map (fun p => (⟨"processing", uploadAdjusted p, none⟩ : RegUpdate)) up ++
                 [⟨"completed", 100, none⟩]))), ?_⟩
            simp [processVideoUpdates]
          | ok _ => simp [firstFailure] at h

/-! ## Status counting -/

theorem length_eq_status_counts (m : Registry)
    (h : ∀ p ∈ m, p.2.status = "uploaded" ∨ p.2.status = "processing" ∨
         p.2.status = "completed" ∨ p.2.status = "error") :
    m.length = (getVideosByStatus m "uploaded").length
      + (getVideosByStatus m "processing").length
      + (getVideosByStatus m "completed").length
      + (getVideosByStatus m "error").length := by
  induction m with
  | nil => simp [getVideosByStatus]
  | cons a as ih =>
    have ha := h a (by simp)
    have hrest := ih (fun p hp => h p (by simp [hp]))
    simp only [getVideosByStatus] at hrest ⊢
    rcases ha with h1 | h1 | h1 | h1 <;>
      simp [List.filter_cons, h1] at hrest ⊢ <;> omega

/-! ## Claim theorems -/

/-- C1, counterexample: the registry's update operation does not guard
terminal states. Job `J1` is `completed` (via `updateVideoResults`), yet a
subsequent `updateVideoStatus` call moves it back to `processing` with
progress 50 — a reachable transition out of a terminal state, refuting the
claim that such updates are rejected or ignored. -/
theorem updateVideoStatus_terminal_cex :
    (getVideo terminalRegistry "J1").map (fun r => r.status) = some "completed" ∧
    (getVideo overwrittenRegistry "J1").map (fun r => (r.status, r.progress))
      = some ("processing", 50) := by
  constructor <;> rfl

/-- C1 (amended): `updateVideoStatus` ignores updates only for ids absent
from the registry; for any present job — terminal or not — it applies the
update unconditionally, overwriting `status` and `progress` with the given
arguments. -/
theorem updateVideoStatus_applies_unconditionally (m : Registry) (videoId status : String)
    (progress : ℚ) (error : Option String) (now : String) :
    (getVideo m videoId = none →
      (updateVideoStatus m videoId status progress error now).1 = m) ∧
    (∀ v, getVideo m videoId = some v →
      getVideo (updateVideoStatus m videoId status progress error now).1 videoId
          = some (mergeStatusUpdate v status progress error now) ∧
        (mergeStatusUpdate v status progress error now).status = status ∧
        (mergeStatusUpdate v status progress error now).progress = progress) := by
  constructor
  · exact updateVideoStatus_registry_of_absent m videoId status progress error now
  · intro v h
    refine ⟨?_, rfl, rfl⟩
    rw [updateVideoStatus_registry_of_present m videoId status progress error now v h]
    exact getVideo_setVideo_self m videoId _

/-- C1 witness: the amended theorem applied to a concrete one-job registry. -/
theorem updateVideoStatus_applies_unconditionally_witness :
    getVideo (updateVideoStatus [("J1", demoUpload)] "J1" "processing" 50 none "t").1 "J1"
      = some (mergeStatusUpdate demoUpload "processing" 50 none "t") :=
  (((updateVideoStatus_applies_unconditionally [("J1", demoUpload)] "J1" "processing"
      50 none "t").2 demoUpload rfl).1)

/-- C2, counterexample: a reachable registry state (produced by the local
pipeline's own successful completion path, which finishes with
`updateVideoStatus(id, 'completed', 100)` and never attaches the result to
the registry record) in which a job is `completed` with progress 100 but has
no result payload. -/
theorem completed_without_result_cex :
    (getVideo localCompletedRegistry "J1").map
        (fun r => (r.status, r.progress, r.processedVideoUrl, r.thumbnailUrl))
      = some ("completed", 100, none, none) := by
  rfl

/-- C2 (amended): a status read immediately after `updateVideoResults` shows
`completed`, progress 100, and the result attached; but the invariant does
not hold of every reachable `completed` record, since `updateVideoStatus`
can set `completed` without attaching a result (see the counterexample). -/
theorem updateVideoResults_gives_completed (m : Registry) (videoId : String)
    (results : UploadResults) (now : String) (v : VideoRecord)
    (h : getVideo m videoId = some v) :
    ∃ r, getVideo (updateVideoResults m videoId results now).1 videoId = some r ∧
      r.status = "completed" ∧ r.progress = 100 ∧
      r.processedVideoUrl = some results.videoUrl ∧
      r.thumbnailUrl = some results.thumbnailUrl := by
  refine ⟨mergeResults v results now, ?_, rfl, rfl, rfl, rfl⟩
  rw [updateVideoResults_registry_of_present m videoId results now v h]
  exact getVideo_setVideo_self m videoId _

/-- C2 witness: the amended theorem applied to a concrete one-job registry. -/
theorem updateVideoResults_gives_completed_witness :
    ∃ r, getVideo (updateVideoResults [("J1", demoUpload)] "J1"
        { videoUrl := "u", thumbnailUrl := "th" } "t").1 "J1" = some r ∧
      r.status = "completed" ∧ r.progress = 100 ∧
      r.processedVideoUrl = some "u" ∧ r.thumbnailUrl = some "th" :=
  updateVideoResults_gives_completed [("J1", demoUpload)] "J1"
    { videoUrl := "u", thumbnailUrl := "th" } "t" demoUpload rfl

/-- C3, counterexample: in the spec's own scenario (transcode fails with
"codec error" after analysis reported progress 20), the catch block calls
`updateVideoStatus(id, 'error', 0, msg)`: the job ends at progress 0, not at
the last reported value 20, refuting the preserved-progress claim. -/
theorem error_progress_reset_cex :
    processVideoUpdates codecFailEnv
      = [⟨"processing", 10, none⟩, ⟨"processing", 20, none⟩,
         ⟨"error", 0, some "codec error"⟩] ∧
    (getVideo codecFailRegistry "J3").map (fun r => (r.status, r.progress, r.error))
      = some ("error", 0, some "codec error") ∧
    (0 : ℚ) ≠ 20 := by
  refine ⟨rfl, rfl, by norm_num⟩

/-- C3 (amended): when any delegated stage fails, the run's final registry
update is `error`/0 with the triggering error's message — the status becomes
`error`, `errorMessage` is the triggering message, no update follows it in
the run, but the progress value is reset to 0 rather than preserved. -/
theorem pipeline_failure_sets_error (env : PipelineEnv) (msg : String)
    (m : Registry) (videoId : String) (v : VideoRecord)
    (hfail : firstFailure env = some msg) (hv : getVideo m videoId = some v) :
    (∃ pre, processVideoUpdates env = pre ++ [⟨"error", 0, some msg⟩]) ∧
    ∃ r, getVideo (applyUpdates m videoId (processVideoUpdates env)) videoId = some r ∧
      r.status = "error" ∧ r.error = some msg ∧ r.progress = 0 := by
  obtain ⟨pre, hpre⟩ := processVideoUpdates_failure env msg hfail
  refine ⟨⟨pre, hpre⟩, ?_⟩
  rw [hpre]
  have hg := applyUpdates_get (pre ++ [⟨"error", 0, some msg⟩]) m videoId v hv
  rw [List.foldl_append, List.foldl_cons, List.foldl_nil] at hg
  exact ⟨_, hg, rfl, rfl, rfl⟩

/-- C3 witness: the amended theorem applied to the codec-error scenario. -/
theorem pipeline_failure_sets_error_witness :
    (∃ pre, processVideoUpdates codecFailEnv = pre ++ [⟨"error", 0, some "codec error"⟩]) ∧
    ∃ r, getVideo (applyUpdates (notifyNewUpload [] j3Upload).1 "J3"
        (processVideoUpdates codecFailEnv)) "J3" = some r ∧
      r.status = "error" ∧ r.error = some "codec error" ∧ r.progress = 0 :=
  pipeline_failure_sets_error codecFailEnv "codec error"
    (notifyNewUpload [] j3Upload).1 "J3" j3Upload rfl rfl

/-- C4: for each configured stage range — transcode `[20, 60]`, upload
`[70, 95]` — and stage-local percentage `p ∈ [0, 100]`, the adjusted overall
progress equals `start + p * (end - start) / 100`, lies within the stage's
range, and is monotone in `p`. -/
theorem aggregator_range_monotone (p : ℚ) (hp0 : 0 ≤ p) (hp1 : p ≤ 100) :
    (transcodeAdjusted p = aggregateProgress 20 60 p ∧
     uploadAdjusted p = aggregateProgress 70 95 p) ∧
    (20 ≤ transcodeAdjusted p ∧ transcodeAdjusted p ≤ 60) ∧
    (70 ≤ uploadAdjusted p ∧ uploadAdjusted p ≤ 95) ∧
    (∀ q, p ≤ q →
      transcodeAdjusted p ≤ transcodeAdjusted q ∧ uploadAdjusted p ≤ uploadAdjusted q) := by
  refine ⟨⟨?_, ?_⟩, ⟨transcodeAdjusted_lb p hp0, transcodeAdjusted_ub p hp1⟩,
    ⟨uploadAdjusted_lb p hp0, uploadAdjusted_ub p hp1⟩,
    fun q hq => ⟨transcodeAdjusted_mono p q hq, uploadAdjusted_mono p q hq⟩⟩
  · unfold transcodeAdjusted aggregateProgress; ring
  · unfold uploadAdjusted aggregateProgress; ring

/-- C4 witness: the aggregation theorem applied at `p = 50`. -/
theorem aggregator_range_monotone_witness :
    (transcodeAdjusted 50 = aggregateProgress 20 60 50 ∧
     uploadAdjusted 50 = aggregateProgress 70 95 50) ∧
    (20 ≤ transcodeAdjusted 50 ∧ transcodeAdjusted 50 ≤ 60) ∧
    (70 ≤ uploadAdjusted 50 ∧ uploadAdjusted 50 ≤ 95) ∧
    (∀ q, 50 ≤ q →
      transcodeAdjusted 50 ≤ transcodeAdjusted q ∧ uploadAdjusted 50 ≤ uploadAdjusted q) :=
  aggregator_range_monotone 50 (by norm_num) (by norm_num)

/-- C6: when remote-mode job creation's write to the version-controlled
store fails, the create call itself fails (HTTP 500, `success = false`) and
the registry's record for the job is in status `error`, not `processing`. -/
theorem uploadGithub_commit_failure (m : Registry) (r : UploadReqInfo) (msg : String) :
    (handleUploadGithub m r (.fail msg)).response = ⟨500, false⟩ ∧
    (getVideo (handleUploadGithub m r (.fail msg)).registry r.id).map (fun v => v.status)
        = some "error" ∧
    (getVideo (handleUploadGithub m r (.fail msg)).registry r.id).map (fun v => v.status)
        ≠ some "processing" := by
  have hcreated : getVideo (notifyNewUpload m (mkVideoInfo r)).1 r.id
      = some (mkVideoInfo r) := by
    exact getVideo_setVideo_self m r.id _
  have hreg : (handleUploadGithub m r (.fail msg)).registry
      = setVideo (notifyNewUpload m (mkVideoInfo r)).1 r.id
          (mergeStatusUpdate (mkVideoInfo r) "error" 0 (some msg) "t") := by
    show (updateVideoStatus (notifyNewUpload m (mkVideoInfo r)).1 r.id "error" 0
        (some msg) "t").1 = _
    exact updateVideoStatus_registry_of_present _ _ _ _ _ _ _ hcreated
  refine ⟨rfl, ?_, ?_⟩ <;> rw [hreg, getVideo_setVideo_self] <;> simp [mergeStatusUpdate]

/-- C6 witness: the commit-failure theorem at a concrete request. -/
theorem uploadGithub_commit_failure_witness :
    (handleUploadGithub [] reqA (.fail "store write failed")).response = ⟨500, false⟩ ∧
    (getVideo (handleUploadGithub [] reqA (.fail "store write failed")).registry
        reqA.id).map (fun v => v.status) = some "error" ∧
    (getVideo (handleUploadGithub [] reqA (.fail "store write failed")).registry
        reqA.id).map (fun v => v.status) ≠ some "processing" :=
  uploadGithub_commit_failure [] reqA "store write failed"

/-- C7, counterexample: the store path the Remote Queue Executor commits to
is `uploads/<multer filename>`, not a function of the job id — two uploads
with the same job id but different generated filenames are committed to
different paths. -/
theorem commitPath_not_derived_from_id_cex :
    reqA.id = reqB.id ∧
    (handleUploadGithub [] reqA (.ok ())).commitPath
      ≠ (handleUploadGithub [] reqB (.ok ())).commitPath := by
  constructor
  · rfl
  · decide

/-- C7 (amended): on a successful remote-mode creation the handler commits
the artifact to `uploads/<uploaded filename>` (deterministic in the file
name, not in the job id), then performs exactly one status update —
`processing` with fixed progress 15 — leaving the job's record at
`processing`/15. -/
theorem uploadGithub_success (m : Registry) (r : UploadReqInfo) :
    (handleUploadGithub m r (.ok ())).commitPath = "uploads/" ++ r.filename ∧
    (handleUploadGithub m r (.ok ())).statusUpdates = [⟨"processing", 15, none⟩] ∧
    (getVideo (handleUploadGithub m r (.ok ())).registry r.id).map
        (fun v => (v.status, v.progress)) = some ("processing", 15) := by
  have hcreated : getVideo (notifyNewUpload m (mkVideoInfo r)).1 r.id
      = some (mkVideoInfo r) := by
    exact getVideo_setVideo_self m r.id _
  have hreg : (handleUploadGithub m r (.ok ())).registry
      = setVideo (notifyNewUpload m (mkVideoInfo r)).1 r.id
          (mergeStatusUpdate (mkVideoInfo r) "processing" 15 none "t") := by
    show (updateVideoStatus (notifyNewUpload m (mkVideoInfo r)).1 r.id "processing" 15
        none "t").1 = _
    exact updateVideoStatus_registry_of_present _ _ _ _ _ _ _ hcreated
  refine ⟨rfl, rfl, ?_⟩
  rw [hreg, getVideo_setVideo_self]
  rfl

/-- C10: whenever every record's status is one of the four states, the
stats event satisfies `total = uploaded + processing + completed + error`
and `active = uploaded + processing`. -/
theorem getSystemStats_total_active (m : Registry)
    (h : ∀ p ∈ m, p.2.status = "uploaded" ∨ p.2.status = "processing" ∨
         p.2.status = "completed" ∨ p.2.status = "error") :
    (getSystemStats m).total
        = (getSystemStats m).uploaded + (getSystemStats m).processing
          + (getSystemStats m).completed + (getSystemStats m).error ∧
    (getSystemStats m).active
        = (getSystemStats m).uploaded + (getSystemStats m).processing := by
  exact ⟨length_eq_status_counts m h, rfl⟩

/-- C10 witness: the stats identity on a concrete two-job registry. -/
theorem getSystemStats_total_active_witness :
    (getSystemStats [("J1", demoUpload), ("J3", j3Upload)]).total
        = (getSystemStats [("J1", demoUpload), ("J3", j3Upload)]).uploaded
          + (getSystemStats [("J1", demoUpload), ("J3", j3Upload)]).processing
          + (getSystemStats [("J1", demoUpload), ("J3", j3Upload)]).completed
          + (getSystemStats [("J1", demoUpload), ("J3", j3Upload)]).error ∧
    (getSystemStats [("J1", demoUpload), ("J3", j3Upload)]).active
        = (getSystemStats [("J1", demoUpload), ("J3", j3Upload)]).uploaded
          + (getSystemStats [("J1", demoUpload), ("J3", j3Upload)]).processing :=
  getSystemStats_total_active [("J1", demoUpload), ("J3", j3Upload)] (by decide)

/-- C5: the result poller runs at a fixed 15000 ms interval with an attempt
ceiling of 80; a run in which none of the 80 read attempts succeeds performs
exactly 80 attempts, stops, and surfaces the timeout (whatever the store
would have yielded on later reads); a first successful read at attempt `k`
stops the loop at `k` attempts and yields the fetched payload; the success
reconciliation sets the job's record to `completed`/100 carrying the fetched
result; and the poller's only effect on the client's video map is that
reconciliation — it never writes status `error` (on timeout it writes
nothing at all). -/
theorem startPollingResults_spec (fetch : Nat → Option ResultData) :
    pollIntervalMs = 15000 ∧ maxAttempts = 80 ∧
    ((∀ n, 1 ≤ n → n ≤ 80 → fetch n = none) → pollRun fetch = ⟨80, true, none⟩) ∧
    (∀ k d, 1 ≤ k → k ≤ 80 → fetch k = some d →
      (∀ j, 1 ≤ j → j < k → fetch j = none) →
      pollRun fetch = ⟨k, decide (80 ≤ k), some d⟩) ∧
    (∀ videos videoId d, ∃ r,
      getVideo (applyPollOutcome videos videoId (some d)) videoId = some r ∧
      r.status = "completed" ∧ r.progress = 100 ∧
      (∀ u, d.videoUrl = some u → r.processedVideoUrl = some u) ∧
      (∀ u, d.thumbnailUrl = some u → r.thumbnailUrl = some u) ∧
      (∀ ps, d.videoParts = some ps → r.videoParts = ps)) ∧
    (∀ videos videoId, applyPollOutcome videos videoId none = videos) ∧
    (∀ videos videoId found w r,
      getVideo (applyPollOutcome videos videoId found) w = some r →
      r.status = "completed" ∨ getVideo videos w = some r) := by
  refine ⟨rfl, rfl, ?_, ?_, ?_, fun videos videoId => rfl, ?_⟩
  · intro h
    exact pollGo_all_fail fetch h maxAttempts 0 rfl (by decide)
  · intro k d h1 h80 hfk hbef
    exact pollGo_first_success fetch k d h80 hfk hbef maxAttempts 0 rfl (by omega)
  · intro videos videoId d
    refine ⟨pollMerged videos videoId d, ?_, rfl, rfl, ?_, ?_, ?_⟩
    · show getVideo (setVideo videos videoId (pollMerged videos videoId d)) videoId = _
      exact getVideo_setVideo_self _ _ _
    · intro u hu
      simp [pollMerged, hu]
    · intro u hu
      simp [pollMerged, hu]
    · intro ps hps
      simp [pollMerged, hps]
  · intro videos videoId found w r hr
    cases found with
    | none => exact Or.inr hr
    | some d =>
      by_cases hw : w = videoId
      · subst hw
        rw [applyPollOutcome, applyPollSuccess, getVideo_setVideo_self] at hr
        obtain rfl : _ = r := Option.some.injEq _ _ ▸ hr
        exact Or.inl rfl
      · rw [applyPollOutcome, applyPollSuccess, getVideo_setVideo_ne _ _ _ _ hw] at hr
        exact Or.inr hr

/-- C5 witness: a run whose 80 attempts all fail performs exactly 80
attempts and times out, and a concrete success reconciliation yields a
`completed`/100 record carrying the fetched URLs. -/
theorem startPollingResults_spec_witness :
    pollRun (fun _ => none) = ⟨80, true, none⟩ ∧
    (∃ r, getVideo (applyPollOutcome [] "J9"
          (some { videoUrl := some "u", thumbnailUrl := some "th" })) "J9" = some r ∧
      r.status = "completed" ∧ r.progress = 100 ∧
      (∀ u, ({ videoUrl := some "u", thumbnailUrl := some "th" } : ResultData).videoUrl
          = some u → r.processedVideoUrl = some u) ∧
      (∀ u, ({ videoUrl := some "u", thumbnailUrl := some "th" } : ResultData).thumbnailUrl
          = some u → r.thumbnailUrl = some u) ∧
      (∀ ps, ({ videoUrl := some "u", thumbnailUrl := some "th" } : ResultData).videoParts
          = some ps → r.videoParts = ps)) :=
  ⟨(startPollingResults_spec (fun _ => none)).2.2.1 (fun _ _ _ => rfl),
   (startPollingResults_spec (fun _ => none)).2.2.2.2.1 [] "J9"
     { videoUrl := some "u", thumbnailUrl := some "th" }⟩

/-- C8: an observer joining the room of a job that exists in the registry is
sent the job's current snapshot as part of the join itself: in the serial
delivery order, the snapshot (carrying the record as of the join) precedes
every delivery generated by commands after the join, wherever the join falls
in the trace. -/
theorem join_snapshot_before_updates (m : Registry) (pre post : List Cmd)
    (sid vid : String) (v : VideoRecord)
    (h : getVideo (serverRun m pre).1 vid = some v) :
    (serverRun m (pre ++ Cmd.joinRoom sid vid :: post)).2
      = (serverRun m pre).2
        ++ ⟨Dest.socket sid, "video-status-update", v⟩
        :: (serverRun (serverRun m pre).1 post).2 := by
  rw [serverRun_append]
  simp only [serverRun, serverStep, h]
  rfl

/-- C8 witness: the snapshot-then-deltas ordering on a concrete trace with
one job and one later update. -/
theorem join_snapshot_before_updates_witness :
    (serverRun [] ([Cmd.newUpload demoUpload]
        ++ Cmd.joinRoom "s1" "J1" :: [Cmd.update "J1" "processing" 40 none "t1"])).2
      = (serverRun [] [Cmd.newUpload demoUpload]).2
        ++ ⟨Dest.socket "s1", "video-status-update", demoUpload⟩
        :: (serverRun (serverRun [] [Cmd.newUpload demoUpload]).1
              [Cmd.update "J1" "processing" 40 none "t1"]).2 :=
  join_snapshot_before_updates [] [Cmd.newUpload demoUpload]
    [Cmd.update "J1" "processing" 40 none "t1"] "s1" "J1" demoUpload rfl

/-! ## Segment lemmas for the reported processing-progress sequence -/

theorem mapProgress_map_transcode (tp : List ℚ) :
    List.map (fun u => u.progress)
      (List.map (fun p => (⟨"processing", transcodeAdjusted p, none⟩ : RegUpdate)) tp)
      = List.map transcodeAdjusted tp := by
  induction tp with
  | nil => rfl
  | cons a l ih => simp [ih]

theorem mapProgress_map_upload (up : List ℚ) :
    List.map (fun u => u.progress)
      (List.map (fun p => (⟨"processing", uploadAdjusted p, none⟩ : RegUpdate)) up)
      = List.map uploadAdjusted up := by
  induction up with
  | nil => rfl
  | cons a l ih => simp [ih]

theorem mapProgress_comp_transcode (tp : List ℚ) :
    List.map ((fun (u : RegUpdate) => u.progress) ∘
        (fun p => (⟨"processing", transcodeAdjusted p, none⟩ : RegUpdate))) tp
      = List.map transcodeAdjusted tp := by
  induction tp with
  | nil => rfl
  | cons a l ih => simp only [List.map_cons, ih]; rfl

theorem mapProgress_comp_upload (up : List ℚ) :
    List.map ((fun (u : RegUpdate) => u.progress) ∘
        (fun p => (⟨"processing", uploadAdjusted p, none⟩ : RegUpdate))) up
      = List.map uploadAdjusted up := by
  induction up with
  | nil => rfl
  | cons a l ih => simp only [List.map_cons, ih]; rfl

theorem filterProcessing_map_transcode (tp : List ℚ) :
    List.filter (fun u => u.status = "processing")
      (List.map (fun p => (⟨"processing", transcodeAdjusted p, none⟩ : RegUpdate)) tp)
      = List.map (fun p => (⟨"processing", transcodeAdjusted p, none⟩ : RegUpdate)) tp := by
  induction tp with
  | nil => rfl
  | cons a l ih => simp [List.filter_cons, ih]

theorem filterProcessing_map_upload (up : List ℚ) :
    List.filter (fun u => u.status = "processing")
      (List.map (fun p => (⟨"processing", uploadAdjusted p, none⟩ : RegUpdate)) up)
      = List.map (fun p => (⟨"processing", uploadAdjusted p, none⟩ : RegUpdate)) up := by
  induction up with
  | nil => rfl
  | cons a l ih => simp [List.filter_cons, ih]

theorem chain_seg_transcode (tp : List ℚ)
    (ht : List.Chain' (fun a b => a ≤ b) tp)
    (htb : ∀ p ∈ tp, 0 ≤ p ∧ p ≤ 100) :
    List.Chain' (fun a b => a ≤ b)
      ((10 : ℚ) :: 20 :: List.map transcodeAdjusted tp) := by
  have heq : (10 : ℚ) :: 20 :: List.map transcodeAdjusted tp
      = [(10 : ℚ), 20] ++ List.map transcodeAdjusted tp := by simp
  rw [heq]
  apply chainLe_append_of_bound _ _ 20
  · simp [List.chain'_cons]
    norm_num
  · exact chainLe_map_transcode tp ht
  · intro x hx
    simp at hx
    rcases hx with rfl | rfl <;> norm_num
  · intro y hy
    obtain ⟨p, hp, rfl⟩ := List.mem_map.mp hy
    exact transcodeAdjusted_lb p (htb p hp).1

theorem chain_seg_thumbnail (tp : List ℚ)
    (ht : List.Chain' (fun a b => a ≤ b) tp)
    (htb : ∀ p ∈ tp, 0 ≤ p ∧ p ≤ 100) :
    List.Chain' (fun a b => a ≤ b)
      ((10 : ℚ) :: 20 :: (List.map transcodeAdjusted tp ++ [60])) := by
  have heq : (10 : ℚ) :: 20 :: (List.map transcodeAdjusted tp ++ [60])
      = ((10 : ℚ) :: 20 :: List.map transcodeAdjusted tp) ++ [60] := by simp
  rw [heq]
  apply chainLe_append_of_bound _ _ 60
  · exact chain_seg_transcode tp ht htb
  · simp
  · intro x hx
    simp at hx
    rcases hx with rfl | rfl | ⟨p, hp, rfl⟩
    · norm_num
    · norm_num
    · exact transcodeAdjusted_ub p (htb p hp).2
  · intro y hy
    simp at hy
    subst hy
    norm_num

theorem chain_seg_full (tp up : List ℚ)
    (ht : List.Chain' (fun a b => a ≤ b) tp)
    (htb : ∀ p ∈ tp, 0 ≤ p ∧ p ≤ 100)
    (hu : List.Chain' (fun a b => a ≤ b) up)
    (hub : ∀ p ∈ up, 0 ≤ p ∧ p ≤ 100) :
    List.Chain' (fun a b => a ≤ b)
      ((10 : ℚ) :: 20 ::
        (List.map transcodeAdjusted tp ++ (60 :: 70 :: List.map uploadAdjusted up))) := by
  have heq : (10 : ℚ) :: 20 ::
        (List.map transcodeAdjusted tp ++ (60 :: 70 :: List.map uploadAdjusted up))
      = ((10 : ℚ) :: 20 :: List.map transcodeAdjusted tp)
        ++ ([(60 : ℚ), 70] ++ List.map uploadAdjusted up) := by simp
  rw [heq]
  apply chainLe_append_of_bound _ _ 60
  · exact chain_seg_transcode tp ht htb
  · apply chainLe_append_of_bound _ _ 70
    · simp [List.chain'_cons]
      norm_num
    · exact chainLe_map_upload up hu
    · intro x hx
      simp at hx
      rcases hx with rfl | rfl <;> norm_num
    · intro y hy
      obtain ⟨p, hp, rfl⟩ := List.mem_map.mp hy
      exact uploadAdjusted_lb p (hub p hp).1
  · intro x hx
    simp at hx
    rcases hx with rfl | rfl | ⟨p, hp, rfl⟩
    · norm_num
    · norm_num
    · exact transcodeAdjusted_ub p (htb p hp).2
  · intro y hy
    simp at hy
    rcases hy with rfl | rfl | ⟨p, hp, rfl⟩
    · norm_num
    · norm_num
    · have := uploadAdjusted_lb p (hub p hp).1
      linarith

/-- C9: under the boundary contract that each delegated operation delivers
monotonically non-decreasing stage-local percentages in `[0, 100]`, the
progress values a pipeline run reports with status `processing` form a
non-decreasing sequence, whatever the stage outcomes. -/
theorem processing_progress_nondecreasing (env : PipelineEnv)
    (ht : List.Chain' (fun a b => a ≤ b) env.transcodeProgress)
    (htb : ∀ p ∈ env.transcodeProgress, 0 ≤ p ∧ p ≤ 100)
    (hu : List.Chain' (fun a b => a ≤ b) env.uploadProgress)
    (hub : ∀ p ∈ env.uploadProgress, 0 ≤ p ∧ p ≤ 100) :
    List.Chain' (fun a b => a ≤ b) (reportedProcessingProgress env) := by
  obtain ⟨a, tp, tr, th, up, ur, cr⟩ := env
  dsimp only at ht htb hu hub
  cases a with
  | fail m => simp [reportedProcessingProgress, processVideoUpdates]
  | ok u =>
    cases tr with
    | fail m =>
      have hform : reportedProcessingProgress ⟨.ok u, tp, .fail m, th, up, ur, cr⟩
          = (10 : ℚ) :: 20 :: List.map transcodeAdjusted tp := by
        simp [reportedProcessingProgress, processVideoUpdates, List.filter_append,
          filterProcessing_map_transcode, mapProgress_map_transcode]
      rw [hform]
      exact chain_seg_transcode tp ht htb
    | ok opath =>
      cases th with
      | fail m =>
        have hform : reportedProcessingProgress ⟨.ok u, tp, .ok opath, .fail m, up, ur, cr⟩
            = (10 : ℚ) :: 20 :: (List.map transcodeAdjusted tp ++ [60]) := by
          simp [reportedProcessingProgress, processVideoUpdates, List.filter_append,
            filterProcessing_map_transcode, mapProgress_map_transcode]
        rw [hform]
        exact chain_seg_thumbnail tp ht htb
      | ok tpath =>
        cases ur with
        | fail m =>
          have hform : reportedProcessingProgress
                ⟨.ok u, tp, .ok opath, .ok tpath, up, .fail m, cr⟩
              = (10 : ℚ) :: 20 :: (List.map transcodeAdjusted tp
                  ++ (60 :: 70 :: List.map uploadAdjusted up)) := by
            simp [reportedProcessingProgress, processVideoUpdates, List.filter_append,
              filterProcessing_map_transcode, mapProgress_map_transcode,
              filterProcessing_map_upload, mapProgress_map_upload, mapProgress_comp_transcode, mapProgress_comp_upload]
          rw [hform]
          exact chain_seg_full tp up ht htb hu hub
        | ok res =>
          cases cr with
          | fail m =>
            have hform : reportedProcessingProgress
                  ⟨.ok u, tp, .ok opath, .ok tpath, up, .ok res, .fail m⟩
                = (10 : ℚ) :: 20 :: (List.map transcodeAdjusted tp
                    ++ (60 :: 70 :: List.map uploadAdjusted up)) := by
              simp [reportedProcessingProgress, processVideoUpdates, List.filter_append,
                filterProcessing_map_transcode, mapProgress_map_transcode,
                filterProcessing_map_upload, mapProgress_map_upload, mapProgress_comp_transcode, mapProgress_comp_upload]
            rw [hform]
            exact chain_seg_full tp up ht htb hu hub
          | ok uu =>
            have hform : reportedProcessingProgress
                  ⟨.ok u, tp, .ok opath, .ok tpath, up, .ok res, .ok uu⟩
                = (10 : ℚ) :: 20 :: (List.map transcodeAdjusted tp
                    ++ (60 :: 70 :: List.map uploadAdjusted up)) := by
              simp [reportedProcessingProgress, processVideoUpdates, List.filter_append,
                filterProcessing_map_transcode, mapProgress_map_transcode,
                filterProcessing_map_upload, mapProgress_map_upload, mapProgress_comp_transcode, mapProgress_comp_upload]
            rw [hform]
            exact chain_seg_full tp up ht htb hu hub

/-- C9 witness: the reported processing sequence of a fully successful run
with monotone stage-local progress is non-decreasing. -/
theorem processing_progress_nondecreasing_witness :
    List.Chain' (fun a b => a ≤ b) (reportedProcessingProgress successEnv) :=
  processing_progress_nondecreasing successEnv (by simp [successEnv])
    (by intro p hp; simp [successEnv] at hp; subst hp; norm_num)
    (by simp [successEnv])
    (by intro p hp; simp [successEnv] at hp; subst hp; norm_num)

end VideoSys
